import Mathlib

/-!
Verification of the HLG+ / SMPTE ST 2094 App 4 bitstream inspection tool
(hlgplus_info.py). The Python source is shallowly embedded: bytes are
modelled as natural numbers, byte buffers as lists, the stateful scan of
cmd_info as an explicit fold over a state record, and fallible parsers as
Option-valued functions. Python loops are embedded with explicit fuel
parameters that are provably sufficient, so every definition is executable.
-/

/-- Byte view of Python slicing data[a:b] (clamping, empty when b ≤ a). -/
def pySlice (l : List Nat) (a b : Nat) : List Nat := (l.drop a).take (b - a)

def START3 : List Nat := [0x00, 0x00, 0x01]

def START4 : List Nat := [0x00, 0x00, 0x00, 0x01]

def NAL_AUD : Int := 35

def NAL_PREFIX_SEI : Int := 39

def SEI_USER_DATA_REGISTERED_ITU_T_T35 : Nat := 4

def T35_COUNTRY_CODE : Nat := 0xB5

def T35_PROVIDER_CODE : Nat := 0x003C

/-- Test data[k:k+3] in (START3, START4), the stop test of the inner scan
loop of iter_nals (line 46 of the source). A 3-byte pySlice never equals the
4-byte START4, but the membership test of the source is kept verbatim. -/
def isStartAt (data : List Nat) (k : Nat) : Prop :=
  pySlice data k (k + 3) = START3 ∨ pySlice data k (k + 3) = START4

instance (data : List Nat) (k : Nat) : Decidable (isStartAt data k) := by
  unfold isStartAt; infer_instance

/-- Inner loop of iter_nals: advance k while k < n - 4 and no start code at
k. Fuel-based so that the definition computes; fuel data.length suffices. -/
def findEndAux (data : List Nat) : Nat → Nat → Nat
  | 0, k => k
  | fuel + 1, k =>
    if k < data.length - 4 ∧ ¬ isStartAt data k then findEndAux data fuel (k + 1)
    else k

def findEnd (data : List Nat) (k : Nat) : Nat := findEndAux data data.length k

/-- Outer loop of iter_nals (lines 32-49): scan for a 4-byte start code
00 00 00 01 or 3-byte start code 00 00 01 while i < n - 4; on a match the
NAL body runs from the end of the code to findEnd. Fuel data.length is
enough since i strictly increases and the loop needs i < data.length - 4. -/
def scanAux (data : List Nat) : Nat → Nat → List (List Nat)
  | 0, _ => []
  | fuel + 1, i =>
    if i < data.length - 4 then
      if pySlice data i (i + 4) = START4 then
        let k := findEnd data (i + 4)
        pySlice data (i + 4) k :: scanAux data fuel k
      else if pySlice data i (i + 3) = START3 then
        let k := findEnd data (i + 3)
        pySlice data (i + 3) k :: scanAux data fuel k
      else scanAux data fuel (i + 1)
    else []

def iter_nals (data : List Nat) : List (List Nat) := scanAux data data.length 0

/-- nal_type (lines 51-52): (nal[0] >> 1) & 0x3F, or -1 for an empty NAL. -/
def nal_type (nal : List Nat) : Int :=
  match nal with
  | [] => -1
  | b :: _ => ((b >>> 1) &&& 0x3F : Nat)

/-- is_vcl (lines 54-55): 0 <= t <= 31. -/
def is_vcl (t : Int) : Bool := decide (0 ≤ t ∧ t ≤ 31)

/-- Loop body of remove_epb (lines 57-68), with the zeros counter as an
explicit argument; zeros is capped at 2 exactly as in the source. -/
def removeEpbAux (zeros : Nat) : List Nat → List Nat
  | [] => []
  | x :: xs =>
    if zeros = 2 ∧ x = 3 then removeEpbAux 0 xs
    else x :: removeEpbAux (if x = 0 then min (zeros + 1) 2 else 0) xs

def remove_epb (b : List Nat) : List Nat := removeEpbAux 0 b

/-- A list contains no contiguous 00 00 03 triple (the emulation-prevention
pattern); used to state the amended idempotence property of remove_epb. -/
def noTwoZeroThree : List Nat → Bool
  | x :: y :: z :: rest =>
    if x = 0 ∧ y = 0 ∧ z = 3 then false else noTwoZeroThree (y :: z :: rest)
  | _ => true

/-- Scan of removeEpbAux that records whether any byte would be removed. -/
def cleanFrom (zeros : Nat) : List Nat → Bool
  | [] => true
  | x :: xs =>
    if zeros = 2 ∧ x = 3 then false
    else cleanFrom (if x = 0 then min (zeros + 1) 2 else 0) xs

structure BitReader where
  data : List Nat
  bitpos : Nat
deriving DecidableEq

/-- bits_left (lines 77-78): len(data) * 8 - bitpos, as a Python int. -/
def BitReader.bits_left (br : BitReader) : Int :=
  (br.data.length : Int) * 8 - br.bitpos

/-- One bit of the buffer, exactly the loop body expression of read_bits
(lines 87-89): (data[bitpos >> 3] >> (7 - (bitpos & 7))) & 1. -/
def bitAt (data : List Nat) (pos : Nat) : Nat :=
  (data.getD (pos >>> 3) 0 >>> (7 - (pos &&& 7))) &&& 1

/-- The accumulation loop of read_bits: n iterations of
v = (v << 1) | bit, bitpos += 1. Returns the value and the new bitpos. -/
def readLoop (data : List Nat) : Nat → Nat → Nat → Nat × Nat
  | pos, 0, v => (v, pos)
  | pos, n + 1, v => readLoop data (pos + 1) n ((v <<< 1) ||| bitAt data pos)

/-- read_bits (lines 80-91). n <= 0 returns 0 with the reader unchanged;
insufficient bits raises (modelled as an error result) with the reader
unchanged, since the Python raise happens before any mutation. -/
def BitReader.read_bits (br : BitReader) (n : Int) : Except String Nat × BitReader :=
  if n ≤ 0 then (.ok 0, br)
  else if br.bits_left < n then (.error "Not enough bits", br)
  else
    let r := readLoop br.data br.bitpos n.toNat 0
    (.ok r.1, ⟨br.data, r.2⟩)

/-- MSB-first bit field of width n starting at bit position pos: the bit
at pos carries weight 2 to the n-1; reference form for the read_bits
loop, with the positional weights explicit. -/
def specBits (data : List Nat) (pos : Nat) : Nat → Nat
  | 0 => 0
  | n + 1 => 2 ^ n * bitAt data pos + specBits data (pos + 1) n

/-- first_slice_flag_from_vcl (lines 96-106). -/
def first_slice_flag_from_vcl (nal : List Nat) : Bool :=
  if nal.length < 3 then false
  else
    let rbsp := remove_epb (nal.drop 2)
    if rbsp = [] then false
    else
      match BitReader.read_bits ⟨rbsp, 0⟩ 1 with
      | (.ok v, _) => decide (v ≠ 0)
      | (.error _, _) => false

/-- The 0xFF-escape accumulator of parse_sei_messages (lines 115-122 and
124-131): consume 0xFF bytes, each adding 255, then add the terminator;
none when the buffer runs out first. -/
def readEsc : List Nat → Option (Nat × List Nat)
  | [] => none
  | x :: rest =>
    if x = 0xFF then (readEsc rest).map (fun vr => (vr.1 + 255, vr.2))
    else some (x, rest)

/-- Loop of parse_sei_messages (lines 108-138) over the remaining buffer.
Each iteration consumes at least two bytes, so fuel length+1 suffices. -/
def seiWalkAux : Nat → List Nat → List (Nat × List Nat)
  | 0, _ => []
  | fuel + 1, l =>
    if l.length = 0 then []
    else if l = [0x80] then []
    else
      match readEsc l with
      | none => []
      | some (pt, r1) =>
        match readEsc r1 with
        | none => []
        | some (sz, r2) =>
          if sz ≤ r2.length then (pt, r2.take sz) :: seiWalkAux fuel (r2.drop sz)
          else []

def parse_sei_messages (rbsp : List Nat) : List (Nat × List Nat) :=
  seiWalkAux (rbsp.length + 1) rbsp

/-- Canonical 0xFF-escape encoding of a value, as described by the spec:
value div 255 bytes of 0xFF followed by value mod 255. -/
def seiEncodeValue (v : Nat) : List Nat :=
  List.replicate (v / 255) 0xFF ++ [v % 255]

/-- One SEI message as laid out in an RBSP: escaped type, escaped size,
then exactly size payload bytes. -/
def seiEncodeMessage (m : Nat × List Nat) : List Nat :=
  seiEncodeValue m.1 ++ seiEncodeValue m.2.length ++ m.2

/-- A well-formed SEI RBSP per the spec: concatenated messages, optionally
terminated by a single trailing 0x80 stop byte. -/
def seiEncode (msgs : List (Nat × List Nat)) (trail : Bool) : List Nat :=
  (msgs.map seiEncodeMessage).flatten ++ (if trail then [0x80] else [])

structure T35 where
  country_code : Nat
  provider_code : Nat
  oriented_code : Nat
  app_id : Nat
  app_ver : Nat
  app_data : List Nat
deriving DecidableEq

/-- parse_itu_t_t35 (lines 140-176): staged reads with a length check at
every stage; the 0xFF country code consumes one extension byte. -/
def parse_itu_t_t35 (payload : List Nat) : Option T35 :=
  if payload.length < 1 then none
  else
    let cc := payload.getD 0 0
    let step1 : Option Nat :=
      if cc = 0xFF then (if payload.length ≤ 1 then none else some 2)
      else some 1
    match step1 with
    | none => none
    | some idx =>
      if payload.length < idx + 2 then none
      else
        let pc := 256 * payload.getD idx 0 + payload.getD (idx + 1) 0
        if payload.length < idx + 4 then none
        else
          let oc := 256 * payload.getD (idx + 2) 0 + payload.getD (idx + 3) 0
          if payload.length < idx + 6 then none
          else
            some ⟨cc, pc, oc, payload.getD (idx + 4) 0, payload.getD (idx + 5) 0,
                  payload.drop (idx + 6)⟩

/-- is_st2094_app4_signature (lines 178-179), on an already-parsed record. -/
def is_st2094_app4_signature (t : T35) : Bool :=
  decide (t.country_code = T35_COUNTRY_CODE ∧ t.provider_code = T35_PROVIDER_CODE)

def NOTE_PEAK : String := "actual_peak_luminance_flag=1 (window stats not parsed)"

inductive App4Stats where
  | flagged (num_windows targeted_max_lum : Nat) (note : String)
  | full (num_windows targeted_max_lum m0 m1 m2 average_maxrgb : Nat)
deriving DecidableEq

/-- parse_app4_window0_stats (lines 181-209): bit-level parse of app_data;
any insufficient-bits failure yields none. -/
def parse_app4_window0_stats (app_data : List Nat) : Option App4Stats :=
  if app_data = [] then none
  else
    match BitReader.read_bits ⟨app_data, 0⟩ 2 with
    | (.error _, _) => none
    | (.ok num_windows, br1) =>
      match br1.read_bits 27 with
      | (.error _, _) => none
      | (.ok targeted_max_lum, br2) =>
        match br2.read_bits 1 with
        | (.error _, _) => none
        | (.ok peak_flag, br3) =>
          if peak_flag ≠ 0 then
            some (.flagged num_windows targeted_max_lum NOTE_PEAK)
          else
            match br3.read_bits 17 with
            | (.error _, _) => none
            | (.ok m0, br4) =>
              match br4.read_bits 17 with
              | (.error _, _) => none
              | (.ok m1, br5) =>
                match br5.read_bits 17 with
                | (.error _, _) => none
                | (.ok m2, br6) =>
                  match br6.read_bits 17 with
                  | (.error _, _) => none
                  | (.ok avg, _) =>
                    some (.full num_windows targeted_max_lum m0 m1 m2 avg)

structure AuTracker where
  use_aud : Bool
  au : Int
deriving DecidableEq

/-- AuTracker.feed (lines 216-234): returns the new tracker, the au index
and the started flag. -/
def AuTracker.feed (tr : AuTracker) (nal : List Nat) : AuTracker × Int × Bool :=
  let t := nal_type nal
  if tr.use_aud then
    if t = NAL_AUD then ({ tr with au := tr.au + 1 }, tr.au + 1, true)
    else (tr, tr.au, false)
  else
    if is_vcl t then
      let first_slice := first_slice_flag_from_vcl nal
      if tr.au = -1 then ({ tr with au := 0 }, 0, true)
      else if first_slice then ({ tr with au := tr.au + 1 }, tr.au + 1, true)
      else (tr, tr.au, false)
    else (tr, tr.au, false)

/-- detect_aud (lines 236-237). -/
def detect_aud (nals : List (List Nat)) : Bool :=
  nals.any (fun n => decide (nal_type n = NAL_AUD))

/-- safe_div (lines 239-240) over rationals (Python floats are modelled as
exact rationals; all inputs here are integers). -/
def safe_div (a b : ℚ) : ℚ := if b ≠ 0 then a / b else 0

/-- Inner fold of mode_from_counts: the running first-encountered maximum,
replaced only on a strictly greater count, matching Python max on items. -/
def modeGo {α : Type} (k : α) (c : Nat) : List (α × Nat) → α
  | [] => k
  | (k', c') :: rest => if c < c' then modeGo k' c' rest else modeGo k c rest

/-- mode_from_counts (lines 242-245): first key attaining the maximal
count, in insertion order; none for an empty counts mapping. -/
def mode_from_counts {α : Type} : List (α × Nat) → Option α
  | [] => none
  | (k, c) :: rest => some (modeGo k c rest)

/-- Counting map bump: defaultdict(int)[k] += 1 with insertion order. -/
def bump {α : Type} [DecidableEq α] : List (α × Nat) → α → List (α × Nat)
  | [], k => [(k, 1)]
  | (k', c) :: rest, k =>
    if k' = k then (k', c + 1) :: rest else (k', c) :: bump rest k

/-- Counting map read: defaultdict(int) lookup with default 0. -/
def lookupCount : List (Int × Nat) → Int → Nat
  | [], _ => 0
  | (k, c) :: rest, q => if k = q then c else lookupCount rest q

/-- The mutable state of the cmd_info scan loop (lines 261-285). -/
structure ScanState where
  tracker : AuTracker
  current_au : Int
  total_aus : Int
  vcl_nals : Nat
  sei_prefix_nals : Nat
  msgs : Nat
  msgs_before_first_vcl : Nat
  seen_first_vcl : Bool
  per_au : List (Int × Nat)
  unique_payloads : List (List Nat)
  last_payload : Option (List Nat)
  run_len : Nat
  runs : List Nat
  oriented_counts : List (Nat × Nat)
  app_id_counts : List (Nat × Nat)
  app_ver_counts : List (Nat × Nat)
  window0 : Option App4Stats

def initState (use_aud : Bool) : ScanState :=
  ⟨⟨use_aud, -1⟩, -1, 0, 0, 0, 0, 0, false, [], [], none, 0, [], [], [], [], none⟩

/-- Python truthiness guard on the window0 dict shape (line 336): both
result shapes carry maxscl or note, mirrored on the inductive. -/
def hasStatsOrNote : App4Stats → Bool
  | .flagged _ _ _ => true
  | .full _ _ _ _ _ _ => true

/-- Lines 311-313: tally the T.35 header fields of every parsed record. -/
def msgTally (t35 : T35) (s : ScanState) : ScanState :=
  { s with
    oriented_counts := bump s.oriented_counts t35.oriented_code,
    app_id_counts := bump s.app_id_counts t35.app_id,
    app_ver_counts := bump s.app_ver_counts t35.app_ver }

/-- Lines 318-319: count the signature message, also per access unit. -/
def msgCount (s : ScanState) : ScanState :=
  { s with msgs := s.msgs + 1, per_au := bump s.per_au s.current_au }

/-- Lines 321-322: count messages seen before the first VCL unit. -/
def msgBeforeVcl (s : ScanState) : ScanState :=
  if ¬ s.seen_first_vcl then
    { s with msgs_before_first_vcl := s.msgs_before_first_vcl + 1 }
  else s

/-- Line 324: record the payload in the unique-payload set. -/
def msgUnique (payload : List Nat) (s : ScanState) : ScanState :=
  if s.unique_payloads.contains payload then s
  else { s with unique_payloads := s.unique_payloads ++ [payload] }

/-- Lines 326-332: run-length tracking of consecutive identical payloads. -/
def msgRuns (payload : List Nat) (s : ScanState) : ScanState :=
  if s.last_payload = some payload then { s with run_len := s.run_len + 1 }
  else
    { s with
      runs := if 0 < s.run_len then s.runs ++ [s.run_len] else s.runs,
      last_payload := some payload,
      run_len := 1 }

/-- Lines 334-337: parse the first window-0 stats block that qualifies. -/
def msgWindow (t35 : T35) (s : ScanState) : ScanState :=
  if s.window0.isNone then
    match parse_app4_window0_stats t35.app_data with
    | some parsed =>
      if hasStatsOrNote parsed then { s with window0 := some parsed } else s
    | none => s
  else s

/-- Body of the inner SEI-message loop of cmd_info (lines 303-337), acting
on one (payload_type, payload) pair: the sequential mutations of the
Python loop body are composed left to right. -/
def processMsg (s : ScanState) (pm : Nat × List Nat) : ScanState :=
  if pm.1 ≠ SEI_USER_DATA_REGISTERED_ITU_T_T35 then s
  else
    match parse_itu_t_t35 pm.2 with
    | none => s
    | some t35 =>
      if ¬ is_st2094_app4_signature t35 then msgTally t35 s
      else
        msgWindow t35 (msgRuns pm.2 (msgUnique pm.2 (msgBeforeVcl (msgCount (msgTally t35 s)))))

/-- Lines 288-291: feed the tracker and, on a started signal, move the
current index and raise the AU total. -/
def stepTrack (s : ScanState) (nal : List Nat) : ScanState :=
  let fed := s.tracker.feed nal
  let s1 := { s with tracker := fed.1 }
  if fed.2.2 then
    { s1 with current_au := fed.2.1, total_aus := max s1.total_aus (fed.2.1 + 1) }
  else s1

/-- Lines 295-297: count VCL units and set the first-VCL flag. -/
def stepVcl (nal : List Nat) (s : ScanState) : ScanState :=
  if is_vcl (nal_type nal) then
    { s with vcl_nals := s.vcl_nals + 1, seen_first_vcl := true }
  else s

/-- Lines 299-337: on a prefix-SEI NAL with more than 2 bytes, strip the
header, remove emulation prevention, and fold the SEI messages. -/
def stepSei (nal : List Nat) (s : ScanState) : ScanState :=
  if nal_type nal = NAL_PREFIX_SEI ∧ 2 < nal.length then
    (parse_sei_messages (remove_epb (nal.drop 2))).foldl processMsg
      { s with sei_prefix_nals := s.sei_prefix_nals + 1 }
  else s

/-- Body of the main NAL loop of cmd_info (lines 287-337), as the
sequential composition of its three stages. -/
def step (s : ScanState) (nal : List Nat) : ScanState :=
  stepSei nal (stepVcl nal (stepTrack s nal))

/-- Trailing-run flush after the loop (lines 339-340). -/
def finalizeRuns (s : ScanState) : ScanState :=
  if 0 < s.run_len then { s with runs := s.runs ++ [s.run_len] } else s

/-- The whole aggregation pass of cmd_info on the input bytes: scan NAL
units, pick the tracker mode, fold the loop body, flush the run. -/
def analyze (data : List Nat) : ScanState :=
  let nals := iter_nals data
  finalizeRuns (nals.foldl step (initState (detect_aud nals)))

/-- aus_with_meta (line 342): entries of per_au with a positive count. -/
def aus_with_meta (s : ScanState) : Nat :=
  (s.per_au.filter (fun p => decide (0 < p.2))).length

/-- Entries of per_au at a genuine access-unit index (at least 0) with a
positive count; the pseudo index -1 is excluded. -/
def realAusWithMeta (s : ScanState) : Nat :=
  (s.per_au.filter (fun p => decide (0 ≤ p.1) && decide (0 < p.2))).length

/-- coverage (line 343): safe_div(aus_with_meta, total_aus) if total_aus
else 0.0. -/
def coverage (s : ScanState) : ℚ :=
  if s.total_aus ≠ 0 then safe_div (aus_with_meta s : ℚ) (s.total_aus : ℚ) else 0

inductive Verdict where
  | pass
  | mid
  | fail
deriving DecidableEq

/-- Final verdict (lines 413-420): PASS on the four-way condition, else
PARTIAL (mid) when any message was counted, else FAIL. -/
def verdict (s : ScanState) : Verdict :=
  if 0 < s.total_aus ∧ (aus_with_meta s : Int) = s.total_aus ∧ 0 < s.msgs ∧
      mode_from_counts s.app_id_counts = some 4 then .pass
  else if 0 < s.msgs then .mid
  else .fail

/-- Whether one parsed SEI message is an ST 2094-40 App 4 message: type 4,
T.35 header parses, signature matches (the filters of lines 304-316). -/
def sigMsg (pm : Nat × List Nat) : Bool :=
  decide (pm.1 = SEI_USER_DATA_REGISTERED_ITU_T_T35) &&
    (match parse_itu_t_t35 pm.2 with
     | some t => is_st2094_app4_signature t
     | none => false)

/-- Number of ST 2094-40 messages the loop extracts from one NAL unit. -/
def sigMsgCount (nal : List Nat) : Nat :=
  if nal_type nal = NAL_PREFIX_SEI ∧ 2 < nal.length then
    ((parse_sei_messages (remove_epb (nal.drop 2))).filter sigMsg).length
  else 0

/-- Whether a NAL unit makes the tracker emit its first started signal
when no access unit has been opened yet. -/
def startTrigger (use_aud : Bool) (nal : List Nat) : Bool :=
  if use_aud then decide (nal_type nal = NAL_AUD) else is_vcl (nal_type nal)

/-- Number of ST 2094-40 messages carried by NAL units that precede the
first start-triggering NAL unit of the stream. -/
def preStartMsgs (use_aud : Bool) (nals : List (List Nat)) : Nat :=
  ((nals.takeWhile (fun n => ¬ startTrigger use_aud n)).map sigMsgCount).sum

/-- The prefix-SEI NAL unit used by the concrete streams below: NAL header
4E 01 (type 39), then one SEI message of type 4, size 7, whose payload is
a T.35 header with country 0xB5, provider 0x003C, oriented code 0x0001,
app_id 4, app_ver 1 and empty app_data. -/
def seiNalBytes : List Nat :=
  [0x4E, 0x01, 0x04, 0x07, 0xB5, 0x00, 0x3C, 0x00, 0x01, 0x04, 0x01]

/-- An access-unit delimiter NAL unit (type 35). -/
def audNalBytes : List Nat := [0x46, 0x01]

/-- Stream: SEI, AUD, AUD, SEI, with 3-byte start codes and 4 padding
bytes (the scanner never emits the final 4 bytes of the buffer). -/
def exC2data : List Nat :=
  [0, 0, 1] ++ seiNalBytes ++ [0, 0, 1] ++ audNalBytes ++ [0, 0, 1] ++ audNalBytes ++
    [0, 0, 1] ++ seiNalBytes ++ [0xAA, 0xAA, 0xAA, 0xAA]

/-- Stream: SEI, AUD, SEI, with 3-byte start codes and 4 padding bytes. -/
def exC3data : List Nat :=
  [0, 0, 1] ++ seiNalBytes ++ [0, 0, 1] ++ audNalBytes ++ [0, 0, 1] ++ seiNalBytes ++
    [0xAA, 0xAA, 0xAA, 0xAA]

/-- Stream: AUD then SEI, with 3-byte start codes and 4 padding bytes; no
message precedes the first access unit. -/
def exCleanData : List Nat :=
  [0, 0, 1] ++ audNalBytes ++ [0, 0, 1] ++ seiNalBytes ++ [0xAA, 0xAA, 0xAA, 0xAA]

/-- A buffer whose first matched start code is immediately followed by
another start code: the scanner emits an empty NAL unit for it. -/
def exC5data : List Nat :=
  [0, 0, 1, 0, 0, 1, 0xAA, 0xBB, 0xCC, 0xDD, 0xEE]

/-- A buffer with a single 4-byte start code and five following bytes; the
scanner stops the last NAL unit 4 bytes short of the end of the buffer. -/
def exC1data : List Nat :=
  [0, 0, 0, 1, 0xAA, 0xBB, 0xCC, 0xDD, 0xEE]

/-- Python-style start-code match at one offset: the 4-byte code takes
priority, then the 3-byte code (lines 36-39). -/
def startCodeAt (data : List Nat) (p : Nat) : Option Nat :=
  if pySlice data p (p + 4) = START4 then some 4
  else if pySlice data p (p + 3) = START3 then some 3
  else none

/-- Offset of the provider code inside a T.35 payload: 2 when the country
code byte is the 0xFF extension escape, else 1. -/
def t35Offset (p : List Nat) : Nat := if p.getD 0 0 = 0xFF then 2 else 1

/-- Invariant of the scan state maintained by the cmd_info loop: per_au has
distinct keys, every entry has a positive count and a key in the range
[-1, total_aus), and the cursor indices stay in range. -/
def ScanInv (s : ScanState) : Prop :=
  (s.per_au.map Prod.fst).Nodup ∧
  (∀ p ∈ s.per_au, 0 < p.2 ∧ -1 ≤ p.1 ∧ p.1 + 1 ≤ s.total_aus) ∧
  -1 ≤ s.current_au ∧ s.current_au + 1 ≤ s.total_aus ∧ -1 ≤ s.tracker.au

theorem cleanFrom_removeEpbAux (l : List Nat) :
    ∀ z, cleanFrom z l = true → removeEpbAux z l = l := by
  induction l with
  | nil => intro z _; rfl
  | cons x xs ih =>
    intro z h
    unfold cleanFrom at h
    unfold removeEpbAux
    split at h
    · cases h
    · rename_i hc
      rw [if_neg hc, ih _ h]

theorem noTwoZeroThree_tail (x : Nat) (l : List Nat)
    (h : noTwoZeroThree (x :: l) = true) : noTwoZeroThree l = true := by
  match l with
  | [] => rfl
  | [y] => rfl
  | y :: z :: rest =>
    rw [noTwoZeroThree] at h
    split at h
    · cases h
    · exact h

theorem noTwoZeroThree_append_right (a l : List Nat)
    (h : noTwoZeroThree (a ++ l) = true) : noTwoZeroThree l = true := by
  induction a with
  | nil => exact h
  | cons x xs ih => exact ih (noTwoZeroThree_tail _ _ h)

theorem noTwoZeroThree_cleanFrom (l : List Nat) :
    ∀ z, z ≤ 2 → noTwoZeroThree (List.replicate z 0 ++ l) = true →
      cleanFrom z l = true := by
  induction l with
  | nil => intro z _ _; rfl
  | cons x xs ih =>
    intro z hz h
    unfold cleanFrom
    split
    · rename_i hc
      obtain ⟨hz2, hx3⟩ := hc
      subst hz2
      subst hx3
      simp [List.replicate, noTwoZeroThree] at h
    · rename_i hc
      by_cases hx : x = 0
      · subst hx
        have hrep : List.replicate z 0 ++ 0 :: xs = List.replicate (z + 1) 0 ++ xs := by
          rw [List.replicate_succ']
          simp [List.append_assoc]
        rw [hrep] at h
        rw [if_pos rfl]
        by_cases hz1 : z + 1 ≤ 2
        · rw [min_eq_left hz1]
          exact ih (z + 1) hz1 h
        · have hz2 : z = 2 := by omega
          subst hz2
          have hmin : min (2 + 1) 2 = 2 := rfl
          rw [hmin]
          apply ih 2 (by omega)
          simp only [List.replicate, noTwoZeroThree] at h ⊢
          simpa using h
      · rw [if_neg hx]
        apply ih 0 (by omega)
        have h' : noTwoZeroThree ((List.replicate z 0 ++ [x]) ++ xs) = true := by
          simpa [List.append_assoc] using h
        simpa using noTwoZeroThree_append_right _ _ h'

/-- C4 (counterexample): remove_epb is not idempotent. On 00 00 03 03 one
pass yields 00 00 03, which still contains the two-zero-then-0x03 pattern,
and a second pass strips it down to 00 00. -/
theorem c4_counterexample :
    remove_epb (remove_epb [0, 0, 3, 3]) ≠ remove_epb [0, 0, 3, 3] ∧
    remove_epb [0, 0, 3, 3] = [0, 0, 3] ∧
    remove_epb (remove_epb [0, 0, 3, 3]) = [0, 0] := by decide

/-- C4 (amended): if no two-zero-then-0x03 sequence remains in the output
of one remove_epb pass, then a second pass is the identity, so double
application agrees with single application on exactly those inputs. -/
theorem c4_amended (b : List Nat) (h : noTwoZeroThree (remove_epb b) = true) :
    remove_epb (remove_epb b) = remove_epb b := by
  unfold remove_epb
  exact cleanFrom_removeEpbAux _ 0 (noTwoZeroThree_cleanFrom _ 0 (by omega) (by simpa using h))

theorem c4_amended_witness :
    noTwoZeroThree (remove_epb [0, 0, 3, 0, 5]) = true ∧
    remove_epb (remove_epb [0, 0, 3, 0, 5]) = remove_epb [0, 0, 3, 0, 5] :=
  ⟨by decide, c4_amended [0, 0, 3, 0, 5] (by decide)⟩

/-- C10 (confirmed): read_bits with n ≤ 0 returns 0 and leaves the reader
unchanged; when n exceeds bits_left it produces the insufficient-bits
error with the reader unchanged, so a caller can continue reading from
the same position. -/
theorem c10_read_bits (br : BitReader) (n : Int) :
    (n ≤ 0 → br.read_bits n = (.ok 0, br)) ∧
    (0 < n → br.bits_left < n → br.read_bits n = (.error "Not enough bits", br)) := by
  constructor
  · intro h
    unfold BitReader.read_bits
    rw [if_pos h]
  · intro h1 h2
    unfold BitReader.read_bits
    rw [if_neg (by omega), if_pos h2]

theorem c10_read_bits_witness :
    BitReader.read_bits ⟨[5], 0⟩ (-1) = (.ok 0, ⟨[5], 0⟩) ∧
    BitReader.read_bits ⟨[5], 0⟩ 9 = (.error "Not enough bits", ⟨[5], 0⟩) :=
  ⟨(c10_read_bits ⟨[5], 0⟩ (-1)).1 (by decide),
   (c10_read_bits ⟨[5], 0⟩ 9).2 (by decide) (by decide)⟩

/-- C7 (confirmed): the T.35 header parser returns the record with the
documented layout (1-byte country code with an extra consumed byte when it
is 0xFF, two big-endian 2-byte codes, app_id, app_ver, and the rest as
app_data) whenever every stage has enough bytes, and returns none whenever
some stage lacks bytes; as a total Lean function it never raises. -/
theorem c7_t35 (p : List Nat) :
    (t35Offset p + 6 ≤ p.length →
      parse_itu_t_t35 p = some ⟨p.getD 0 0,
        256 * p.getD (t35Offset p) 0 + p.getD (t35Offset p + 1) 0,
        256 * p.getD (t35Offset p + 2) 0 + p.getD (t35Offset p + 3) 0,
        p.getD (t35Offset p + 4) 0, p.getD (t35Offset p + 5) 0,
        p.drop (t35Offset p + 6)⟩) ∧
    (p.length < t35Offset p + 6 → parse_itu_t_t35 p = none) := by
  unfold parse_itu_t_t35 t35Offset
  by_cases hcc : p.getD 0 0 = 0xFF
  · rw [if_pos hcc]
    constructor
    · intro h
      rw [if_neg (by omega)]
      try dsimp only []
      rw [if_pos hcc, if_neg (by omega : ¬ p.length ≤ 1)]
      try dsimp only []
      rw [if_neg (by omega), if_neg (by omega), if_neg (by omega)]
    · intro h
      by_cases h1 : p.length < 1
      · rw [if_pos h1]
      · rw [if_neg h1]
        try dsimp only []
        rw [if_pos hcc]
        by_cases h2 : p.length ≤ 1
        · rw [if_pos h2]
        · rw [if_neg h2]
          try dsimp only []
          by_cases h3 : p.length < 2 + 2
          · rw [if_pos h3]
          · rw [if_neg h3]
            by_cases h4 : p.length < 2 + 4
            · rw [if_pos h4]
            · rw [if_neg h4, if_pos (by omega : p.length < 2 + 6)]
  · rw [if_neg hcc]
    constructor
    · intro h
      rw [if_neg (by omega)]
      try dsimp only []
      rw [if_neg hcc]
      try dsimp only []
      rw [if_neg (by omega), if_neg (by omega), if_neg (by omega)]
    · intro h
      by_cases h1 : p.length < 1
      · rw [if_pos h1]
      · rw [if_neg h1]
        try dsimp only []
        rw [if_neg hcc]
        try dsimp only []
        by_cases h3 : p.length < 1 + 2
        · rw [if_pos h3]
        · rw [if_neg h3]
          by_cases h4 : p.length < 1 + 4
          · rw [if_pos h4]
          · rw [if_neg h4, if_pos (by omega : p.length < 1 + 6)]

theorem c7_t35_witness :
    parse_itu_t_t35 [0xB5, 0x00, 0x3C, 0x00, 0x01, 0x04, 0x01, 0x09, 0x09] =
      some ⟨0xB5, 0x3C, 0x01, 0x04, 0x01, [0x09, 0x09]⟩ ∧
    parse_itu_t_t35 [0xB5, 0x00, 0x3C, 0x00, 0x01, 0x04] = none :=
  ⟨(c7_t35 [0xB5, 0x00, 0x3C, 0x00, 0x01, 0x04, 0x01, 0x09, 0x09]).1 (by decide),
   (c7_t35 [0xB5, 0x00, 0x3C, 0x00, 0x01, 0x04]).2 (by decide)⟩

theorem bitAt_le_one (data : List Nat) (pos : Nat) : bitAt data pos ≤ 1 :=
  Nat.and_le_right

theorem shiftLeft_or_bit (v b : Nat) (hb : b ≤ 1) : (v <<< 1) ||| b = 2 * v + b := by
  interval_cases b
  · simp [Nat.shiftLeft_eq, Nat.mul_comm]
  · have h1 : v <<< 1 = Nat.bit false v := by
      simp [Nat.bit, Nat.shiftLeft_eq, Nat.mul_comm]
    have h2 : (1 : Nat) = Nat.bit true 0 := rfl
    rw [h1, h2, Nat.lor_bit]
    simp [Nat.bit]

theorem specBits_lt (data : List Nat) :
    ∀ (n pos : Nat), specBits data pos n < 2 ^ n := by
  intro n
  induction n with
  | zero => intro pos; simp [specBits]
  | succ n ih =>
    intro pos
    have hb : bitAt data pos = 0 ∨ bitAt data pos = 1 := by
      have := bitAt_le_one data pos; omega
    have h2 : (2 : Nat) ^ (n + 1) = 2 * 2 ^ n := by ring
    have hs := ih (pos + 1)
    rcases hb with hb | hb <;> rw [specBits, hb] <;> omega

theorem readLoop_eq (data : List Nat) :
    ∀ (n pos v : Nat),
      readLoop data pos n v = (v * 2 ^ n + specBits data pos n, pos + n) := by
  intro n
  induction n with
  | zero => intro pos v; simp [readLoop, specBits]
  | succ n ih =>
    intro pos v
    rw [readLoop, ih, specBits]
    simp only [Prod.mk.injEq]
    constructor
    · rw [shiftLeft_or_bit v (bitAt data pos) (bitAt_le_one data pos)]
      ring
    · omega

/-- read_bits at a strictly positive requested width: error exactly when
bits_left is short, otherwise the specBits field with the cursor moved. -/
theorem read_bits_pos (a : List Nat) (p : Nat) (n : Int) (hn : 0 < n) :
    BitReader.read_bits ⟨a, p⟩ n =
      (if BitReader.bits_left ⟨a, p⟩ < n then (.error "Not enough bits", ⟨a, p⟩)
       else (.ok (specBits a p n.toNat), ⟨a, p + n.toNat⟩)) := by
  unfold BitReader.read_bits
  rw [if_neg (by omega)]
  split
  · rfl
  · dsimp only []
    rw [readLoop_eq]
    simp

theorem specBits_one (data : List Nat) (pos : Nat) :
    specBits data pos 1 = bitAt data pos := by
  simp [specBits]

theorem bits_left_ge (a : List Nat) (p : Nat) (n : Int) (h : (p : Int) + n ≤ (a.length : Int) * 8) :
    ¬ BitReader.bits_left ⟨a, p⟩ < n := by
  unfold BitReader.bits_left
  try dsimp only []
  omega

theorem bits_left_lt (a : List Nat) (p : Nat) (n : Int) (h : (a.length : Int) * 8 < (p : Int) + n) :
    BitReader.bits_left ⟨a, p⟩ < n := by
  unfold BitReader.bits_left
  try dsimp only []
  omega

/-- C8 (confirmed): the App4 window-0 parser reads num_windows (2 bits),
targeted_max_lum (27 bits) and the actual-peak flag (1 bit, buffer bit 29);
with the flag set it returns just those two fields plus the note, with the
flag clear it additionally returns the three 17-bit maxscl values and the
17-bit average_maxrgb, and whenever the bits run out (fewer than 4 bytes,
or fewer than 13 bytes on the flag-clear path) it returns none. -/
theorem c8_app4 (a : List Nat) :
    (a.length < 4 → parse_app4_window0_stats a = none) ∧
    (4 ≤ a.length → bitAt a 29 = 1 →
      parse_app4_window0_stats a =
        some (.flagged (specBits a 0 2) (specBits a 2 27) NOTE_PEAK)) ∧
    (4 ≤ a.length → bitAt a 29 = 0 → 13 ≤ a.length →
      parse_app4_window0_stats a =
        some (.full (specBits a 0 2) (specBits a 2 27) (specBits a 30 17)
          (specBits a 47 17) (specBits a 64 17) (specBits a 81 17))) ∧
    (4 ≤ a.length → bitAt a 29 = 0 → a.length < 13 →
      parse_app4_window0_stats a = none) := by
  refine ⟨?_, ?_, ?_, ?_⟩
  · intro h
    unfold parse_app4_window0_stats
    by_cases ha : a = []
    · rw [if_pos ha]
    · rw [if_neg ha]
      have hL1 : 1 ≤ a.length := List.length_pos.mpr ha
      rw [read_bits_pos a 0 2 (by norm_num),
        if_neg (bits_left_ge a 0 2 (by push_cast; omega))]
      simp only [show Int.toNat 2 = 2 from rfl, show Int.toNat 27 = 27 from rfl,
        show Int.toNat 1 = 1 from rfl, show Int.toNat 17 = 17 from rfl]
      try norm_num
      try dsimp only []
      rw [read_bits_pos a 2 27 (by norm_num),
        if_pos (bits_left_lt a 2 27 (by push_cast; omega))]
  · intro hL hb
    unfold parse_app4_window0_stats
    rw [if_neg (by intro he; rw [he] at hL; simp at hL)]
    rw [read_bits_pos a 0 2 (by norm_num),
      if_neg (bits_left_ge a 0 2 (by push_cast; omega))]
    simp only [show Int.toNat 2 = 2 from rfl, show Int.toNat 27 = 27 from rfl,
      show Int.toNat 1 = 1 from rfl, show Int.toNat 17 = 17 from rfl]
    try norm_num
    try dsimp only []
    rw [read_bits_pos a 2 27 (by norm_num),
      if_neg (bits_left_ge a 2 27 (by push_cast; omega))]
    simp only [show Int.toNat 2 = 2 from rfl, show Int.toNat 27 = 27 from rfl,
      show Int.toNat 1 = 1 from rfl, show Int.toNat 17 = 17 from rfl]
    try norm_num
    try dsimp only []
    rw [read_bits_pos a 29 1 (by norm_num),
      if_neg (bits_left_ge a 29 1 (by push_cast; omega))]
    simp only [show Int.toNat 2 = 2 from rfl, show Int.toNat 27 = 27 from rfl,
      show Int.toNat 1 = 1 from rfl, show Int.toNat 17 = 17 from rfl]
    try norm_num
    try dsimp only []
    rw [specBits_one, hb]
    exact fun h => absurd h (by decide)
  · intro hL hb hL13
    unfold parse_app4_window0_stats
    rw [if_neg (by intro he; rw [he] at hL; simp at hL)]
    rw [read_bits_pos a 0 2 (by norm_num),
      if_neg (bits_left_ge a 0 2 (by push_cast; omega))]
    simp only [show Int.toNat 2 = 2 from rfl, show Int.toNat 27 = 27 from rfl,
      show Int.toNat 1 = 1 from rfl, show Int.toNat 17 = 17 from rfl]
    try norm_num
    try dsimp only []
    rw [read_bits_pos a 2 27 (by norm_num),
      if_neg (bits_left_ge a 2 27 (by push_cast; omega))]
    simp only [show Int.toNat 2 = 2 from rfl, show Int.toNat 27 = 27 from rfl,
      show Int.toNat 1 = 1 from rfl, show Int.toNat 17 = 17 from rfl]
    try norm_num
    try dsimp only []
    rw [read_bits_pos a 29 1 (by norm_num),
      if_neg (bits_left_ge a 29 1 (by push_cast; omega))]
    simp only [show Int.toNat 2 = 2 from rfl, show Int.toNat 27 = 27 from rfl,
      show Int.toNat 1 = 1 from rfl, show Int.toNat 17 = 17 from rfl]
    try norm_num
    try dsimp only []
    rw [specBits_one, hb]
    rw [if_pos rfl]
    rw [read_bits_pos a 30 17 (by norm_num),
      if_neg (bits_left_ge a 30 17 (by push_cast; omega))]
    simp only [show Int.toNat 2 = 2 from rfl, show Int.toNat 27 = 27 from rfl,
      show Int.toNat 1 = 1 from rfl, show Int.toNat 17 = 17 from rfl]
    try norm_num
    try dsimp only []
    rw [read_bits_pos a 47 17 (by norm_num),
      if_neg (bits_left_ge a 47 17 (by push_cast; omega))]
    simp only [show Int.toNat 2 = 2 from rfl, show Int.toNat 27 = 27 from rfl,
      show Int.toNat 1 = 1 from rfl, show Int.toNat 17 = 17 from rfl]
    try norm_num
    try dsimp only []
    rw [read_bits_pos a 64 17 (by norm_num),
      if_neg (bits_left_ge a 64 17 (by push_cast; omega))]
    simp only [show Int.toNat 2 = 2 from rfl, show Int.toNat 27 = 27 from rfl,
      show Int.toNat 1 = 1 from rfl, show Int.toNat 17 = 17 from rfl]
    try norm_num
    try dsimp only []
    rw [read_bits_pos a 81 17 (by norm_num),
      if_neg (bits_left_ge a 81 17 (by push_cast; omega))]
    rfl
  · intro hL hb hL13
    unfold parse_app4_window0_stats
    rw [if_neg (by intro he; rw [he] at hL; simp at hL)]
    rw [read_bits_pos a 0 2 (by norm_num),
      if_neg (bits_left_ge a 0 2 (by push_cast; omega))]
    simp only [show Int.toNat 2 = 2 from rfl, show Int.toNat 27 = 27 from rfl,
      show Int.toNat 1 = 1 from rfl, show Int.toNat 17 = 17 from rfl]
    try norm_num
    try dsimp only []
    rw [read_bits_pos a 2 27 (by norm_num),
      if_neg (bits_left_ge a 2 27 (by push_cast; omega))]
    simp only [show Int.toNat 2 = 2 from rfl, show Int.toNat 27 = 27 from rfl,
      show Int.toNat 1 = 1 from rfl, show Int.toNat 17 = 17 from rfl]
    try norm_num
    try dsimp only []
    rw [read_bits_pos a 29 1 (by norm_num),
      if_neg (bits_left_ge a 29 1 (by push_cast; omega))]
    simp only [show Int.toNat 2 = 2 from rfl, show Int.toNat 27 = 27 from rfl,
      show Int.toNat 1 = 1 from rfl, show Int.toNat 17 = 17 from rfl]
    try norm_num
    try dsimp only []
    rw [specBits_one, hb]
    rw [if_pos rfl]
    by_cases h30 : a.length ≤ 5
    · rw [read_bits_pos a 30 17 (by norm_num),
        if_pos (bits_left_lt a 30 17 (by push_cast; omega))]
    · by_cases h47 : a.length ≤ 7
      · rw [read_bits_pos a 30 17 (by norm_num),
          if_neg (bits_left_ge a 30 17 (by push_cast; omega))]
        simp only [show Int.toNat 2 = 2 from rfl, show Int.toNat 27 = 27 from rfl,
          show Int.toNat 1 = 1 from rfl, show Int.toNat 17 = 17 from rfl]
        try norm_num
        try dsimp only []
        rw [read_bits_pos a 47 17 (by norm_num),
          if_pos (bits_left_lt a 47 17 (by push_cast; omega))]
      · by_cases h64 : a.length ≤ 10
        · rw [read_bits_pos a 30 17 (by norm_num),
            if_neg (bits_left_ge a 30 17 (by push_cast; omega))]
          simp only [show Int.toNat 2 = 2 from rfl, show Int.toNat 27 = 27 from rfl,
            show Int.toNat 1 = 1 from rfl, show Int.toNat 17 = 17 from rfl]
          try norm_num
          try dsimp only []
          rw [read_bits_pos a 47 17 (by norm_num),
            if_neg (bits_left_ge a 47 17 (by push_cast; omega))]
          simp only [show Int.toNat 2 = 2 from rfl, show Int.toNat 27 = 27 from rfl,
            show Int.toNat 1 = 1 from rfl, show Int.toNat 17 = 17 from rfl]
          try norm_num
          try dsimp only []
          rw [read_bits_pos a 64 17 (by norm_num),
            if_pos (bits_left_lt a 64 17 (by push_cast; omega))]
        · rw [read_bits_pos a 30 17 (by norm_num),
            if_neg (bits_left_ge a 30 17 (by push_cast; omega))]
          simp only [show Int.toNat 2 = 2 from rfl, show Int.toNat 27 = 27 from rfl,
            show Int.toNat 1 = 1 from rfl, show Int.toNat 17 = 17 from rfl]
          try norm_num
          try dsimp only []
          rw [read_bits_pos a 47 17 (by norm_num),
            if_neg (bits_left_ge a 47 17 (by push_cast; omega))]
          simp only [show Int.toNat 2 = 2 from rfl, show Int.toNat 27 = 27 from rfl,
            show Int.toNat 1 = 1 from rfl, show Int.toNat 17 = 17 from rfl]
          try norm_num
          try dsimp only []
          rw [read_bits_pos a 64 17 (by norm_num),
            if_neg (bits_left_ge a 64 17 (by push_cast; omega))]
          simp only [show Int.toNat 2 = 2 from rfl, show Int.toNat 27 = 27 from rfl,
            show Int.toNat 1 = 1 from rfl, show Int.toNat 17 = 17 from rfl]
          try norm_num
          try dsimp only []
          rw [read_bits_pos a 81 17 (by norm_num),
            if_pos (bits_left_lt a 81 17 (by push_cast; omega))]

theorem c8_app4_witness :
    parse_app4_window0_stats (List.replicate 13 0) =
      some (.full (specBits (List.replicate 13 0) 0 2)
        (specBits (List.replicate 13 0) 2 27) (specBits (List.replicate 13 0) 30 17)
        (specBits (List.replicate 13 0) 47 17) (specBits (List.replicate 13 0) 64 17)
        (specBits (List.replicate 13 0) 81 17)) ∧
    parse_app4_window0_stats (List.replicate 4 0xFF) =
      some (.flagged (specBits (List.replicate 4 0xFF) 0 2)
        (specBits (List.replicate 4 0xFF) 2 27) NOTE_PEAK) :=
  ⟨(c8_app4 (List.replicate 13 0)).2.2.1 (by decide) (by decide) (by decide),
   (c8_app4 (List.replicate 4 0xFF)).2.1 (by decide) (by decide)⟩

theorem readEsc_replicate (b : Nat) (hb : b < 255) :
    ∀ (q : Nat) (r : List Nat),
      readEsc (List.replicate q 0xFF ++ b :: r) = some (255 * q + b, r) := by
  intro q
  induction q with
  | zero =>
    intro r
    show readEsc (b :: r) = some (255 * 0 + b, r)
    simp [readEsc, Nat.ne_of_lt hb]
  | succ q ih =>
    intro r
    rw [List.replicate_succ, List.cons_append, readEsc, if_pos rfl, ih]
    simp only [Option.map_some', Option.some.injEq, Prod.mk.injEq,
      eq_self_iff_true, and_true]
    omega

theorem readEsc_encode (v : Nat) (r : List Nat) :
    readEsc (seiEncodeValue v ++ r) = some (v, r) := by
  unfold seiEncodeValue
  rw [List.append_assoc, List.singleton_append,
    readEsc_replicate (v % 255) (Nat.mod_lt _ (by omega)) (v / 255) r]
  congr 2
  omega

theorem seiEncodeValue_length_pos (v : Nat) : 0 < (seiEncodeValue v).length := by
  unfold seiEncodeValue
  simp

theorem seiEncodeMessage_length_two (m : Nat × List Nat) :
    2 ≤ (seiEncodeMessage m).length := by
  unfold seiEncodeMessage
  have h1 := seiEncodeValue_length_pos m.1
  have h2 := seiEncodeValue_length_pos m.2.length
  simp only [List.length_append]
  omega

theorem seiEncode_cons (m : Nat × List Nat) (rest : List (Nat × List Nat)) (trail : Bool) :
    seiEncode (m :: rest) trail = seiEncodeMessage m ++ seiEncode rest trail := by
  unfold seiEncode
  simp [List.append_assoc]

theorem seiWalkAux_encode :
    ∀ (msgs : List (Nat × List Nat)) (trail : Bool) (fuel : Nat),
      (seiEncode msgs trail).length < fuel →
      seiWalkAux fuel (seiEncode msgs trail) = msgs := by
  intro msgs
  induction msgs with
  | nil =>
    intro trail fuel hf
    cases trail
    · have he : seiEncode [] false = [] := rfl
      rw [he] at hf ⊢
      cases fuel
      · omega
      · rw [seiWalkAux]
        simp
    · have he : seiEncode [] true = [0x80] := rfl
      rw [he] at hf ⊢
      cases fuel
      · omega
      · rw [seiWalkAux]
        simp
  | cons m rest ih =>
    intro trail fuel hf
    rw [seiEncode_cons] at hf ⊢
    have hm2 := seiEncodeMessage_length_two m
    cases fuel with
    | zero => omega
    | succ fuel =>
      rw [seiWalkAux]
      rw [if_neg (by simp only [List.length_append]; omega)]
      rw [if_neg (by
        intro he
        have := congrArg List.length he
        simp only [List.length_append, List.length_cons, List.length_nil] at this
        omega)]
      unfold seiEncodeMessage
      rw [List.append_assoc, List.append_assoc, readEsc_encode]
      try dsimp only []
      rw [readEsc_encode]
      try dsimp only []
      rw [if_pos (by simp only [List.length_append]; omega)]
      rw [List.take_left, List.drop_left]
      rw [ih trail fuel (by
        simp only [List.length_append] at hf
        omega)]

/-- C6 (confirmed): on a well-formed SEI RBSP, built as a sequence of
messages whose payload_type and payload_size use the 0xFF-escape encoding
followed by exactly payload_size payload bytes, optionally terminated by a
single trailing 0x80 stop byte, the SEI walker yields exactly the encoded
(payload_type, payload) pairs in order, reconstructing escaped values such
as 0xFF 0x05 for 260 exactly. -/
theorem c6_sei_walker (msgs : List (Nat × List Nat)) (trail : Bool) :
    parse_sei_messages (seiEncode msgs trail) = msgs := by
  unfold parse_sei_messages
  exact seiWalkAux_encode msgs trail _ (Nat.lt_succ_self _)

theorem findEndAux_spec (data : List Nat) :
    ∀ (fuel k : Nat), data.length - 4 - k ≤ fuel →
      k ≤ findEndAux data fuel k ∧
      findEndAux data fuel k ≤ max k (data.length - 4) ∧
      (∀ m, k ≤ m → m < findEndAux data fuel k →
        m < data.length - 4 ∧ ¬ isStartAt data m) ∧
      (findEndAux data fuel k < data.length - 4 → isStartAt data (findEndAux data fuel k)) := by
  intro fuel
  induction fuel with
  | zero =>
    intro k hk
    rw [findEndAux]
    exact ⟨le_refl k, le_max_left _ _, fun m h1 h2 => absurd h2 (by omega),
      fun h => absurd h (by omega)⟩
  | succ fuel ih =>
    intro k hk
    rw [findEndAux]
    split
    · rename_i hc
      obtain ⟨hlt, hns⟩ := hc
      obtain ⟨ih1, ih2, ih3, ih4⟩ := ih (k + 1) (by omega)
      refine ⟨by omega, by omega, ?_, ih4⟩
      intro m h1 h2
      by_cases hm : m = k
      · subst hm; exact ⟨hlt, hns⟩
      · exact ih3 m (by omega) h2
    · rename_i hc
      refine ⟨le_refl k, le_max_left _ _, fun m h1 h2 => absurd h2 (by omega), ?_⟩
      intro h
      by_cases hs : isStartAt data k
      · exact hs
      · exact absurd ⟨h, hs⟩ hc

theorem findEnd_spec (data : List Nat) (k : Nat) :
    k ≤ findEnd data k ∧
    findEnd data k ≤ max k (data.length - 4) ∧
    (∀ m, k ≤ m → m < findEnd data k → m < data.length - 4 ∧ ¬ isStartAt data m) ∧
    (findEnd data k < data.length - 4 → isStartAt data (findEnd data k)) :=
  findEndAux_spec data data.length k (by omega)

theorem scanAux_mem (data : List Nat) :
    ∀ (fuel i : Nat) (nal : List Nat), nal ∈ scanAux data fuel i →
      ∃ p sc, startCodeAt data p = some sc ∧ p + 4 < data.length ∧
        nal = pySlice data (p + sc) (findEnd data (p + sc)) := by
  intro fuel
  induction fuel with
  | zero => intro i nal h; rw [scanAux] at h; cases h
  | succ fuel ih =>
    intro i nal h
    rw [scanAux] at h
    split at h
    · rename_i hlt
      split at h
      · rename_i h4
        rcases List.mem_cons.mp h with he | ht
        · refine ⟨i, 4, ?_, by omega, he⟩
          unfold startCodeAt
          rw [if_pos h4]
        · exact ih _ _ ht
      · rename_i h4
        split at h
        · rename_i h3
          rcases List.mem_cons.mp h with he | ht
          · refine ⟨i, 3, ?_, by omega, he⟩
            unfold startCodeAt
            rw [if_neg h4, if_pos h3]
          · exact ih _ _ ht
        · exact ih _ _ h
    · cases h

/-- C1 (amended): every NAL unit the scanner yields begins immediately
after a matched 4-byte or 3-byte start code at an offset p with p + 4 <
n, and extends until the next matched start code or until offset n - 4;
in particular the final 4 bytes of the buffer are never part of any NAL
unit, and a start code beginning at offset n - 4 or later is never
matched (not merely one in the final 3 bytes). -/
theorem c1_scanner_ranges (data : List Nat) (nal : List Nat)
    (h : nal ∈ iter_nals data) :
    ∃ p sc e, startCodeAt data p = some sc ∧ p + 4 < data.length ∧
      nal = pySlice data (p + sc) e ∧ p + sc ≤ e ∧
      e ≤ max (p + sc) (data.length - 4) ∧
      (∀ m, p + sc ≤ m → m < e → ¬ isStartAt data m) ∧
      (e < data.length - 4 → isStartAt data e) := by
  obtain ⟨p, sc, h1, h2, h3⟩ := scanAux_mem data _ _ _ h
  obtain ⟨g1, g2, g3, g4⟩ := findEnd_spec data (p + sc)
  exact ⟨p, sc, findEnd data (p + sc), h1, h2, h3, g1, g2,
    fun m hm1 hm2 => (g3 m hm1 hm2).2, g4⟩

theorem c1_scanner_ranges_witness :
    ∃ p sc e, startCodeAt exC1data p = some sc ∧ p + 4 < exC1data.length ∧
      [0xAA] = pySlice exC1data (p + sc) e ∧ p + sc ≤ e ∧
      e ≤ max (p + sc) (exC1data.length - 4) ∧
      (∀ m, p + sc ≤ m → m < e → ¬ isStartAt exC1data m) ∧
      (e < exC1data.length - 4 → isStartAt exC1data e) :=
  c1_scanner_ranges exC1data [0xAA] (by decide)

/-- C1 (counterexample): on 00 00 00 01 AA BB CC DD EE the scanner yields
a single NAL unit equal to [AA]; the last NAL unit does not extend to the
end of the buffer, dropping the final 4 bytes BB CC DD EE. -/
theorem c1_counterexample :
    iter_nals exC1data = [[0xAA]] ∧
    iter_nals exC1data ≠ [[0xAA, 0xBB, 0xCC, 0xDD, 0xEE]] := by
  constructor
  · decide
  · decide

/-- C5 (amended): every nonempty NAL unit the scanner yields has nal_type
equal to (first byte >> 1) & 0x3F, which lies in [0, 63]; an empty NAL
unit (produced when two start codes are adjacent) has nal_type -1. -/
theorem c5_nal_type (data : List Nat) (nal : List Nat)
    (h : nal ∈ iter_nals data) (hne : nal ≠ []) :
    nal_type nal = ((nal.headI >>> 1) &&& 0x3F : Nat) ∧
    0 ≤ nal_type nal ∧ nal_type nal ≤ 63 := by
  match nal, hne with
  | b :: rest, _ =>
    refine ⟨rfl, ?_, ?_⟩
    · exact Int.natCast_nonneg _
    · have hle : (b >>> 1) &&& 0x3F ≤ 63 := Nat.and_le_right
      show (((b >>> 1) &&& 0x3F : Nat) : Int) ≤ 63
      exact_mod_cast hle

theorem c5_nal_type_witness :
    nal_type [0xAA] = ((List.headI [0xAA] >>> 1) &&& 0x3F : Nat) ∧
    0 ≤ nal_type [0xAA] ∧ nal_type [0xAA] ≤ 63 :=
  c5_nal_type exC5data [0xAA] (by decide) (by decide)

/-- C5 (counterexample): two adjacent start codes make the scanner yield
an empty NAL unit, whose computed nal_type is -1, outside [0, 63]. -/
theorem c5_counterexample :
    iter_nals exC5data = [[], [0xAA]] ∧ nal_type [] = -1 ∧
    ¬ (0 ≤ nal_type [] ∧ nal_type [] ≤ 63) := by
  refine ⟨by decide, rfl, by decide⟩

theorem bump_fst (m : List (Int × Nat)) (k : Int) :
    (bump m k).map Prod.fst =
      if k ∈ m.map Prod.fst then m.map Prod.fst else m.map Prod.fst ++ [k] := by
  induction m with
  | nil => simp [bump]
  | cons q rest ih =>
    obtain ⟨k', c⟩ := q
    rw [bump]
    by_cases hk : k' = k
    · subst hk
      simp
    · rw [if_neg hk]
      simp only [List.map_cons, ih]
      by_cases hmem : k ∈ rest.map Prod.fst
      · rw [if_pos hmem, if_pos (by simp [hmem])]
      · rw [if_neg hmem, if_neg (by
          simp only [List.mem_cons]
          rintro (h | h)
          · exact hk h.symm
          · exact hmem h)]
        simp

theorem bump_nodup (m : List (Int × Nat)) (k : Int)
    (h : (m.map Prod.fst).Nodup) : ((bump m k).map Prod.fst).Nodup := by
  rw [bump_fst]
  split
  · exact h
  · rename_i hmem
    exact h.append (List.nodup_singleton k)
      (by simp [List.disjoint_singleton, hmem])

theorem bump_forall {P : Int × Nat → Prop} (k : Int) (hk : P (k, 1)) :
    ∀ (m : List (Int × Nat)), (∀ q ∈ m, P q) → (∀ q ∈ m, P (q.1, q.2 + 1)) →
      ∀ p ∈ bump m k, P p := by
  intro m
  induction m with
  | nil =>
    intro _ _ p hp
    rw [bump] at hp
    simp at hp
    subst hp
    exact hk
  | cons q rest ih =>
    obtain ⟨k', c⟩ := q
    intro hm hmono p hp
    rw [bump] at hp
    split at hp
    · rcases List.mem_cons.mp hp with he | ht
      · subst he
        exact hmono (k', c) (by simp)
      · exact hm p (List.mem_cons_of_mem _ ht)
    · rcases List.mem_cons.mp hp with he | ht
      · subst he
        exact hm (k', c) (by simp)
      · exact ih (fun q hq => hm q (by simp [hq])) (fun q hq => hmono q (by simp [hq])) p ht

theorem lookupCount_bump_self (m : List (Int × Nat)) (k : Int) :
    lookupCount (bump m k) k = lookupCount m k + 1 := by
  induction m with
  | nil => simp [bump, lookupCount]
  | cons q rest ih =>
    obtain ⟨k', c⟩ := q
    rw [bump]
    by_cases h : k' = k
    · subst h
      rw [if_pos rfl]
      simp [lookupCount]
    · rw [if_neg h]
      simp [lookupCount, h, ih]

theorem lookupCount_bump_ne (m : List (Int × Nat)) (k q : Int) (h : q ≠ k) :
    lookupCount (bump m k) q = lookupCount m q := by
  induction m with
  | nil =>
    simp [bump, lookupCount]
    intro he
    exact absurd he.symm h
  | cons p rest ih =>
    obtain ⟨k', c⟩ := p
    rw [bump]
    by_cases hk : k' = k
    · subst hk
      rw [if_pos rfl]
      rw [lookupCount, lookupCount, if_neg (fun he => h he.symm), if_neg (fun he => h he.symm)]
    · rw [if_neg hk]
      by_cases hq : k' = q
      · rw [lookupCount, lookupCount, if_pos hq, if_pos hq]
      · rw [lookupCount, lookupCount, if_neg hq, if_neg hq, ih]

theorem aus_decomp_list :
    ∀ (m : List (Int × Nat)), (m.map Prod.fst).Nodup →
      (∀ p ∈ m, 0 < p.2 ∧ -1 ≤ p.1) →
      (m.filter (fun p => decide (0 < p.2))).length =
        (m.filter (fun p => decide (0 ≤ p.1) && decide (0 < p.2))).length +
          (if 0 < lookupCount m (-1) then 1 else 0) := by
  intro m
  induction m with
  | nil => intro _ _; simp [lookupCount]
  | cons q rest ih =>
    intro hnd hall
    obtain ⟨k, c⟩ := q
    obtain ⟨hc, hk⟩ := hall (k, c) (by simp)
    simp only [List.map_cons, List.nodup_cons] at hnd
    have hall' : ∀ p ∈ rest, 0 < p.2 ∧ -1 ≤ p.1 := fun p hp => hall p (by simp [hp])
    by_cases hneg : k = -1
    · subst hneg
      have hfeq : rest.filter (fun p => decide (0 < p.2)) =
          rest.filter (fun p => decide (0 ≤ p.1) && decide (0 < p.2)) := by
        apply List.filter_congr
        intro p hp
        obtain ⟨h1, h2⟩ := hall' p hp
        have h3 : p.1 ≠ -1 := by
          intro he
          exact hnd.1 (List.mem_map.mpr ⟨p, hp, he⟩)
        have h4 : 0 ≤ p.1 := by omega
        simp [h1, h4]
      rw [List.filter_cons, List.filter_cons]
      rw [if_pos (by simpa using hc), if_neg (by simp)]
      rw [lookupCount, if_pos rfl, if_pos hc]
      rw [hfeq]
      simp
    · have h0 : 0 ≤ k := by omega
      rw [List.filter_cons, List.filter_cons]
      rw [if_pos (by simpa using hc), if_pos (by simp [h0, hc])]
      rw [lookupCount, if_neg hneg]
      simp only [List.length_cons]
      rw [ih hnd.2 hall']
      omega

theorem nodup_bounded_length (N : Int) (hN : 0 ≤ N) :
    ∀ (l : List Int), l.Nodup → (∀ k ∈ l, 0 ≤ k ∧ k < N) → (l.length : Int) ≤ N := by
  intro l hnd hb
  have hsub : l.toFinset ⊆ Finset.Ico (0 : Int) N := by
    intro k hk
    rw [List.mem_toFinset] at hk
    rw [Finset.mem_Ico]
    exact hb k hk
  have hcard := Finset.card_le_card hsub
  rw [List.toFinset_card_of_nodup hnd, Int.card_Ico] at hcard
  omega

theorem realAus_le_list (m : List (Int × Nat)) (N : Int) (hN : 0 ≤ N)
    (hnd : (m.map Prod.fst).Nodup)
    (hall : ∀ p ∈ m, 0 < p.2 ∧ -1 ≤ p.1 ∧ p.1 + 1 ≤ N) :
    ((m.filter (fun p => decide (0 ≤ p.1) && decide (0 < p.2))).length : Int) ≤ N := by
  have hsub : (m.filter (fun p => decide (0 ≤ p.1) && decide (0 < p.2))).Sublist m :=
    List.filter_sublist m
  have hndf := hnd.sublist (hsub.map Prod.fst)
  have hb : ∀ k ∈ (m.filter (fun p => decide (0 ≤ p.1) && decide (0 < p.2))).map Prod.fst,
      0 ≤ k ∧ k < N := by
    intro k hkm
    obtain ⟨p, hp, he⟩ := List.mem_map.mp hkm
    have hpm := List.mem_of_mem_filter hp
    have hcond := List.of_mem_filter hp
    simp only [Bool.and_eq_true, decide_eq_true_eq] at hcond
    obtain ⟨-, -, h3⟩ := hall p hpm
    subst he
    exact ⟨hcond.1, by omega⟩
  have := nodup_bounded_length N hN _ hndf hb
  simpa using this

theorem msgTally_proj (t35 : T35) (s : ScanState) :
    (msgTally t35 s).tracker = s.tracker ∧ (msgTally t35 s).current_au = s.current_au ∧
    (msgTally t35 s).total_aus = s.total_aus ∧
    (msgTally t35 s).seen_first_vcl = s.seen_first_vcl ∧
    (msgTally t35 s).per_au = s.per_au :=
  ⟨rfl, rfl, rfl, rfl, rfl⟩

theorem msgCount_proj (s : ScanState) :
    (msgCount s).tracker = s.tracker ∧ (msgCount s).current_au = s.current_au ∧
    (msgCount s).total_aus = s.total_aus ∧
    (msgCount s).seen_first_vcl = s.seen_first_vcl ∧
    (msgCount s).per_au = bump s.per_au s.current_au :=
  ⟨rfl, rfl, rfl, rfl, rfl⟩

theorem msgBeforeVcl_proj (s : ScanState) :
    (msgBeforeVcl s).tracker = s.tracker ∧ (msgBeforeVcl s).current_au = s.current_au ∧
    (msgBeforeVcl s).total_aus = s.total_aus ∧
    (msgBeforeVcl s).seen_first_vcl = s.seen_first_vcl ∧
    (msgBeforeVcl s).per_au = s.per_au := by
  unfold msgBeforeVcl
  split <;> exact ⟨rfl, rfl, rfl, rfl, rfl⟩

theorem msgUnique_proj (payload : List Nat) (s : ScanState) :
    (msgUnique payload s).tracker = s.tracker ∧
    (msgUnique payload s).current_au = s.current_au ∧
    (msgUnique payload s).total_aus = s.total_aus ∧
    (msgUnique payload s).seen_first_vcl = s.seen_first_vcl ∧
    (msgUnique payload s).per_au = s.per_au := by
  unfold msgUnique
  split <;> exact ⟨rfl, rfl, rfl, rfl, rfl⟩

theorem msgRuns_proj (payload : List Nat) (s : ScanState) :
    (msgRuns payload s).tracker = s.tracker ∧
    (msgRuns payload s).current_au = s.current_au ∧
    (msgRuns payload s).total_aus = s.total_aus ∧
    (msgRuns payload s).seen_first_vcl = s.seen_first_vcl ∧
    (msgRuns payload s).per_au = s.per_au := by
  unfold msgRuns
  split <;> exact ⟨rfl, rfl, rfl, rfl, rfl⟩

theorem msgWindow_proj (t35 : T35) (s : ScanState) :
    (msgWindow t35 s).tracker = s.tracker ∧ (msgWindow t35 s).current_au = s.current_au ∧
    (msgWindow t35 s).total_aus = s.total_aus ∧
    (msgWindow t35 s).seen_first_vcl = s.seen_first_vcl ∧
    (msgWindow t35 s).per_au = s.per_au := by
  unfold msgWindow
  repeat' split <;> try exact ⟨rfl, rfl, rfl, rfl, rfl⟩

theorem processMsg_const (s : ScanState) (pm : Nat × List Nat) :
    (processMsg s pm).tracker = s.tracker ∧
    (processMsg s pm).current_au = s.current_au ∧
    (processMsg s pm).total_aus = s.total_aus ∧
    (processMsg s pm).seen_first_vcl = s.seen_first_vcl := by
  unfold processMsg
  split
  · exact ⟨rfl, rfl, rfl, rfl⟩
  · split
    · exact ⟨rfl, rfl, rfl, rfl⟩
    · rename_i t35 _
      split
      · obtain ⟨a, b, c, d, -⟩ := msgTally_proj t35 s
        exact ⟨a, b, c, d⟩
      · obtain ⟨a6, b6, c6, d6, -⟩ :=
          msgWindow_proj t35 (msgRuns pm.2 (msgUnique pm.2 (msgBeforeVcl (msgCount (msgTally t35 s)))))
        obtain ⟨a5, b5, c5, d5, -⟩ :=
          msgRuns_proj pm.2 (msgUnique pm.2 (msgBeforeVcl (msgCount (msgTally t35 s))))
        obtain ⟨a4, b4, c4, d4, -⟩ :=
          msgUnique_proj pm.2 (msgBeforeVcl (msgCount (msgTally t35 s)))
        obtain ⟨a3, b3, c3, d3, -⟩ := msgBeforeVcl_proj (msgCount (msgTally t35 s))
        obtain ⟨a2, b2, c2, d2, -⟩ := msgCount_proj (msgTally t35 s)
        obtain ⟨a1, b1, c1, d1, -⟩ := msgTally_proj t35 s
        exact ⟨by rw [a6, a5, a4, a3, a2, a1], by rw [b6, b5, b4, b3, b2, b1],
          by rw [c6, c5, c4, c3, c2, c1], by rw [d6, d5, d4, d3, d2, d1]⟩

theorem processMsg_per_au (s : ScanState) (pm : Nat × List Nat) :
    (processMsg s pm).per_au =
      if sigMsg pm then bump s.per_au s.current_au else s.per_au := by
  unfold processMsg sigMsg
  by_cases h1 : pm.1 = SEI_USER_DATA_REGISTERED_ITU_T_T35
  · rw [if_neg (not_not_intro h1)]
    cases hp : parse_itu_t_t35 pm.2 with
    | none =>
      simp [h1]
    | some t =>
      dsimp only []
      by_cases hs : is_st2094_app4_signature t
      · rw [if_neg (not_not_intro hs)]
        rw [if_pos (by simp [h1, hs])]
        obtain ⟨-, -, -, -, e6⟩ :=
          msgWindow_proj t (msgRuns pm.2 (msgUnique pm.2 (msgBeforeVcl (msgCount (msgTally t s)))))
        obtain ⟨-, -, -, -, e5⟩ :=
          msgRuns_proj pm.2 (msgUnique pm.2 (msgBeforeVcl (msgCount (msgTally t s))))
        obtain ⟨-, -, -, -, e4⟩ := msgUnique_proj pm.2 (msgBeforeVcl (msgCount (msgTally t s)))
        obtain ⟨-, -, -, -, e3⟩ := msgBeforeVcl_proj (msgCount (msgTally t s))
        obtain ⟨-, -, -, -, e2⟩ := msgCount_proj (msgTally t s)
        obtain ⟨-, b1, -, -, e1⟩ := msgTally_proj t s
        rw [e6, e5, e4, e3, e2, e1, b1]
      · rw [if_pos hs]
        rw [if_neg (by simp [h1, hs])]
        exact (msgTally_proj t s).2.2.2.2.symm
  · rw [if_pos h1]
    rw [if_neg (by simp [h1])]

theorem foldl_processMsg_const (msgs : List (Nat × List Nat)) (s : ScanState) :
    (msgs.foldl processMsg s).tracker = s.tracker ∧
    (msgs.foldl processMsg s).current_au = s.current_au ∧
    (msgs.foldl processMsg s).total_aus = s.total_aus := by
  induction msgs generalizing s with
  | nil => exact ⟨rfl, rfl, rfl⟩
  | cons m rest ih =>
    obtain ⟨a, b, c, -⟩ := processMsg_const s m
    obtain ⟨a', b', c'⟩ := ih (processMsg s m)
    exact ⟨a'.trans a, b'.trans b, c'.trans c⟩

theorem foldl_processMsg_lookup (msgs : List (Nat × List Nat)) (s : ScanState) (q : Int) :
    lookupCount ((msgs.foldl processMsg s).per_au) q =
      lookupCount s.per_au q +
        (if q = s.current_au then (msgs.filter sigMsg).length else 0) := by
  induction msgs generalizing s with
  | nil => simp
  | cons m rest ih =>
    rw [List.foldl_cons, ih (processMsg s m)]
    obtain ⟨-, hcur, -, -⟩ := processMsg_const s m
    rw [hcur, processMsg_per_au, List.filter_cons]
    by_cases hm : sigMsg m
    · rw [if_pos hm, if_pos hm]
      by_cases hq : q = s.current_au
      · subst hq
        rw [if_pos rfl, if_pos rfl, lookupCount_bump_self]
        simp only [List.length_cons]
        omega
      · rw [if_neg hq, if_neg hq, lookupCount_bump_ne _ _ _ hq]
    · rw [if_neg hm, if_neg hm]

theorem processMsg_inv (s : ScanState) (pm : Nat × List Nat) (h : ScanInv s) :
    ScanInv (processMsg s pm) := by
  obtain ⟨hnd, hall, hc1, hc2, htr⟩ := h
  obtain ⟨htk, hcu, hto, -⟩ := processMsg_const s pm
  refine ⟨?_, ?_, ?_, ?_, ?_⟩
  · rw [processMsg_per_au]
    split
    · exact bump_nodup _ _ hnd
    · exact hnd
  · rw [processMsg_per_au, hto]
    split
    · refine bump_forall s.current_au ⟨Nat.one_pos, hc1, hc2⟩ s.per_au hall ?_ 
      intro q hq
      exact ⟨Nat.succ_pos _, (hall q hq).2.1, (hall q hq).2.2⟩
    · exact hall
  · rw [hcu]
    exact hc1
  · rw [hcu, hto]
    exact hc2
  · rw [htk]
    exact htr

theorem foldl_processMsg_inv (msgs : List (Nat × List Nat)) (s : ScanState) (h : ScanInv s) :
    ScanInv (msgs.foldl processMsg s) := by
  induction msgs generalizing s with
  | nil => exact h
  | cons m rest ih => exact ih (processMsg s m) (processMsg_inv s m h)

theorem feed_cases (tr : AuTracker) (nal : List Nat) :
    tr.feed nal = (tr, tr.au, false) ∨
    (∃ a : Int, tr.feed nal = ({ tr with au := a }, a, true) ∧ (a = tr.au + 1 ∨ a = 0)) := by
  unfold AuTracker.feed
  try dsimp only []
  split
  · split
    · exact Or.inr ⟨tr.au + 1, rfl, Or.inl rfl⟩
    · exact Or.inl rfl
  · split
    · split
      · exact Or.inr ⟨0, rfl, Or.inr rfl⟩
      · split
        · exact Or.inr ⟨tr.au + 1, rfl, Or.inl rfl⟩
        · exact Or.inl rfl
    · exact Or.inl rfl

theorem feed_use_aud (tr : AuTracker) (nal : List Nat) :
    (tr.feed nal).1.use_aud = tr.use_aud := by
  rcases feed_cases tr nal with h | ⟨a, h, -⟩ <;> rw [h]

theorem stepVcl_proj (nal : List Nat) (s : ScanState) :
    (stepVcl nal s).tracker = s.tracker ∧ (stepVcl nal s).current_au = s.current_au ∧
    (stepVcl nal s).total_aus = s.total_aus ∧ (stepVcl nal s).per_au = s.per_au := by
  unfold stepVcl
  split <;> exact ⟨rfl, rfl, rfl, rfl⟩

theorem stepTrack_cases (s : ScanState) (nal : List Nat) :
    stepTrack s nal = s ∨
    (∃ a : Int, (a = s.tracker.au + 1 ∨ a = 0) ∧
      stepTrack s nal =
        { s with
            tracker := { s.tracker with au := a },
            current_au := a,
            total_aus := max s.total_aus (a + 1) }) := by
  unfold stepTrack
  rcases feed_cases s.tracker nal with h | ⟨a, h, ha⟩
  · rw [h]
    left
    rfl
  · rw [h]
    right
    exact ⟨a, ha, rfl⟩

theorem stepSei_const (nal : List Nat) (s : ScanState) :
    (stepSei nal s).tracker = s.tracker ∧ (stepSei nal s).current_au = s.current_au ∧
    (stepSei nal s).total_aus = s.total_aus := by
  unfold stepSei
  split
  · exact foldl_processMsg_const _ _
  · exact ⟨rfl, rfl, rfl⟩

theorem stepSei_lookup (nal : List Nat) (s : ScanState) (q : Int) :
    lookupCount (stepSei nal s).per_au q =
      lookupCount s.per_au q + (if q = s.current_au then sigMsgCount nal else 0) := by
  unfold stepSei sigMsgCount
  split
  · rw [foldl_processMsg_lookup]
  · simp

theorem stepVcl_inv (nal : List Nat) (s : ScanState) (h : ScanInv s) :
    ScanInv (stepVcl nal s) := by
  unfold stepVcl
  split
  · exact h
  · exact h

theorem stepSei_inv (nal : List Nat) (s : ScanState) (h : ScanInv s) :
    ScanInv (stepSei nal s) := by
  unfold stepSei
  split
  · exact foldl_processMsg_inv _ _ h
  · exact h

theorem stepTrack_inv (s : ScanState) (nal : List Nat) (h : ScanInv s) :
    ScanInv (stepTrack s nal) := by
  rcases stepTrack_cases s nal with heq | ⟨a, ha, heq⟩
  · rw [heq]
    exact h
  · rw [heq]
    obtain ⟨hnd, hall, hc1, hc2, htr⟩ := h
    refine ⟨hnd, ?_, ?_, ?_, ?_⟩
    · intro p hp
      obtain ⟨x, y, z⟩ := hall p hp
      exact ⟨x, y, le_trans z (le_max_left _ _)⟩
    · show -1 ≤ a
      omega
    · show a + 1 ≤ max s.total_aus (a + 1)
      exact le_max_right _ _
    · show -1 ≤ a
      omega

theorem step_inv (s : ScanState) (nal : List Nat) (h : ScanInv s) :
    ScanInv (step s nal) :=
  stepSei_inv nal _ (stepVcl_inv nal _ (stepTrack_inv s nal h))

theorem foldl_step_inv (nals : List (List Nat)) (s : ScanState) (h : ScanInv s) :
    ScanInv (nals.foldl step s) := by
  induction nals generalizing s with
  | nil => exact h
  | cons nal rest ih => exact ih (step s nal) (step_inv s nal h)

theorem finalizeRuns_proj (s : ScanState) :
    (finalizeRuns s).tracker = s.tracker ∧ (finalizeRuns s).current_au = s.current_au ∧
    (finalizeRuns s).total_aus = s.total_aus ∧ (finalizeRuns s).per_au = s.per_au ∧
    (finalizeRuns s).msgs = s.msgs ∧
    (finalizeRuns s).app_id_counts = s.app_id_counts := by
  unfold finalizeRuns
  split <;> exact ⟨rfl, rfl, rfl, rfl, rfl, rfl⟩

theorem finalizeRuns_inv (s : ScanState) (h : ScanInv s) : ScanInv (finalizeRuns s) := by
  unfold finalizeRuns
  split
  · exact h
  · exact h

theorem initState_inv (use_aud : Bool) : ScanInv (initState use_aud) := by
  refine ⟨by simp [initState], ?_, ?_, ?_, ?_⟩
  · intro p hp
    simp [initState] at hp
  · show (-1 : Int) ≤ -1
    omega
  · show (-1 : Int) + 1 ≤ 0
    omega
  · show (-1 : Int) ≤ -1
    omega

theorem analyze_inv (data : List Nat) : ScanInv (analyze data) := by
  unfold analyze
  exact finalizeRuns_inv _ (foldl_step_inv _ _ (initState_inv _))

theorem feed_no_trigger (tr : AuTracker) (nal : List Nat)
    (ht : startTrigger tr.use_aud nal = false) :
    tr.feed nal = (tr, tr.au, false) := by
  unfold AuTracker.feed
  unfold startTrigger at ht
  cases hu : tr.use_aud with
  | false =>
    rw [hu] at ht
    simp only [Bool.false_eq_true, if_false] at ht
    simp [hu, ht]
  | true =>
    rw [hu] at ht
    simp only [if_true] at ht
    simp [hu, decide_eq_false_iff_not.mp ht]

theorem feed_trigger (tr : AuTracker) (nal : List Nat) (hau : tr.au = -1)
    (ht : startTrigger tr.use_aud nal = true) :
    tr.feed nal = ({ tr with au := 0 }, 0, true) := by
  unfold AuTracker.feed
  unfold startTrigger at ht
  cases hu : tr.use_aud with
  | false =>
    rw [hu] at ht
    simp only [Bool.false_eq_true, if_false] at ht
    simp [hu, ht, hau]
  | true =>
    rw [hu] at ht
    simp only [if_true] at ht
    have ht' := of_decide_eq_true ht
    simp [hu, ht', hau]

theorem step_prestart (s : ScanState) (nal : List Nat)
    (hau : s.tracker.au = -1) (hcur : s.current_au = -1)
    (ht : startTrigger s.tracker.use_aud nal = false) :
    (step s nal).tracker.au = -1 ∧
    (step s nal).tracker.use_aud = s.tracker.use_aud ∧
    (step s nal).current_au = -1 ∧
    lookupCount (step s nal).per_au (-1) = lookupCount s.per_au (-1) + sigMsgCount nal := by
  have hst : stepTrack s nal = s := by
    unfold stepTrack
    rw [feed_no_trigger s.tracker nal ht]
    rfl
  unfold step
  rw [hst]
  obtain ⟨v1, v2, v3, v4⟩ := stepVcl_proj nal s
  obtain ⟨c1, c2, c3⟩ := stepSei_const nal (stepVcl nal s)
  refine ⟨?_, ?_, ?_, ?_⟩
  · rw [c1, v1, hau]
  · rw [c1, v1]
  · rw [c2, v2, hcur]
  · rw [stepSei_lookup, v4, v2, hcur, if_pos rfl]

theorem step_poststart (s : ScanState) (nal : List Nat)
    (hau : -1 ≤ s.tracker.au) (hcur : 0 ≤ s.current_au) :
    0 ≤ (step s nal).current_au ∧ -1 ≤ (step s nal).tracker.au ∧
    (step s nal).tracker.use_aud = s.tracker.use_aud ∧
    lookupCount (step s nal).per_au (-1) = lookupCount s.per_au (-1) := by
  obtain ⟨v1, v2, v3, v4⟩ := stepVcl_proj nal (stepTrack s nal)
  obtain ⟨c1, c2, c3⟩ := stepSei_const nal (stepVcl nal (stepTrack s nal))
  have huse : (stepTrack s nal).tracker.use_aud = s.tracker.use_aud := by
    unfold stepTrack
    rcases feed_cases s.tracker nal with h | ⟨a, h, -⟩ <;> rw [h] <;> rfl
  rcases stepTrack_cases s nal with heq | ⟨a, ha, heq⟩
  · unfold step
    refine ⟨?_, ?_, ?_, ?_⟩
    · rw [c2, v2, heq]; exact hcur
    · rw [c1, v1, heq]; exact hau
    · rw [c1, v1, huse]
    · rw [stepSei_lookup, v4, v2, heq, if_neg (by omega)]
      omega
  · have hcur' : (stepTrack s nal).current_au = a := by rw [heq]
    have hau' : (stepTrack s nal).tracker.au = a := by rw [heq]
    have hper : (stepTrack s nal).per_au = s.per_au := by rw [heq]
    have ha' : 0 ≤ a := by rcases ha with h | h <;> omega
    unfold step
    refine ⟨?_, ?_, ?_, ?_⟩
    · rw [c2, v2, hcur']; omega
    · rw [c1, v1, hau']; omega
    · rw [c1, v1, huse]
    · rw [stepSei_lookup, v4, v2, hcur', if_neg (by omega), hper]
      omega

theorem step_trigger (s : ScanState) (nal : List Nat)
    (hau : s.tracker.au = -1) (hcur : s.current_au = -1)
    (ht : startTrigger s.tracker.use_aud nal = true) :
    (step s nal).current_au = 0 ∧ (step s nal).tracker.au = 0 ∧
    (step s nal).tracker.use_aud = s.tracker.use_aud ∧
    lookupCount (step s nal).per_au (-1) = lookupCount s.per_au (-1) := by
  have hst : stepTrack s nal =
      { s with
          tracker := { s.tracker with au := 0 },
          current_au := 0,
          total_aus := max s.total_aus 1 } := by
    unfold stepTrack
    rw [feed_trigger s.tracker nal hau ht]
    norm_num
  obtain ⟨v1, v2, v3, v4⟩ := stepVcl_proj nal (stepTrack s nal)
  obtain ⟨c1, c2, c3⟩ := stepSei_const nal (stepVcl nal (stepTrack s nal))
  unfold step
  refine ⟨?_, ?_, ?_, ?_⟩
  · rw [c2, v2, hst]
  · rw [c1, v1, hst]
  · rw [c1, v1, hst]
  · rw [stepSei_lookup, v4, v2, hst]
    rw [if_neg (by norm_num)]
    norm_num

theorem foldl_poststart (nals : List (List Nat)) :
    ∀ (s : ScanState), -1 ≤ s.tracker.au → 0 ≤ s.current_au →
      lookupCount ((nals.foldl step s).per_au) (-1) = lookupCount s.per_au (-1) := by
  induction nals with
  | nil => intro s _ _; rfl
  | cons nal rest ih =>
    intro s hau hcur
    obtain ⟨h1, h2, h3, h4⟩ := step_poststart s nal hau hcur
    rw [List.foldl_cons, ih (step s nal) h2 h1, h4]

theorem preStartMsgs_nil (use_aud : Bool) : preStartMsgs use_aud [] = 0 := rfl

theorem foldl_prestart (nals : List (List Nat)) :
    ∀ (s : ScanState), s.tracker.au = -1 → s.current_au = -1 →
      lookupCount ((nals.foldl step s).per_au) (-1) =
        lookupCount s.per_au (-1) + preStartMsgs s.tracker.use_aud nals := by
  induction nals with
  | nil => intro s _ _; simp [preStartMsgs_nil]
  | cons nal rest ih =>
    intro s hau hcur
    rw [List.foldl_cons]
    by_cases ht : startTrigger s.tracker.use_aud nal = true
    · obtain ⟨h1, h2, h3, h4⟩ := step_trigger s nal hau hcur ht
      rw [foldl_poststart rest (step s nal) (by omega) (by omega), h4]
      unfold preStartMsgs
      rw [List.takeWhile_cons]
      simp [ht]
    · rw [Bool.not_eq_true] at ht
      obtain ⟨h1, h2, h3, h4⟩ := step_prestart s nal hau hcur ht
      rw [ih (step s nal) h1 h3, h4, h2]
      unfold preStartMsgs
      rw [List.takeWhile_cons]
      simp [ht]
      omega

theorem analyze_lookup_neg (data : List Nat) :
    lookupCount (analyze data).per_au (-1) =
      preStartMsgs (detect_aud (iter_nals data)) (iter_nals data) := by
  unfold analyze
  try dsimp only []
  obtain ⟨-, -, -, hper, -, -⟩ :=
    finalizeRuns_proj ((iter_nals data).foldl step (initState (detect_aud (iter_nals data))))
  rw [hper]
  rw [foldl_prestart (iter_nals data) (initState (detect_aud (iter_nals data))) rfl rfl]
  simp [initState, lookupCount]

theorem analyze_decomp (data : List Nat) :
    aus_with_meta (analyze data) =
      realAusWithMeta (analyze data) +
        (if 0 < lookupCount (analyze data).per_au (-1) then 1 else 0) := by
  obtain ⟨hnd, hall, -, -, -⟩ := analyze_inv data
  unfold aus_with_meta realAusWithMeta
  exact aus_decomp_list _ hnd (fun p hp => ⟨(hall p hp).1, (hall p hp).2.1⟩)

theorem analyze_total_nonneg (data : List Nat) : (0 : Int) ≤ (analyze data).total_aus := by
  obtain ⟨-, -, hc1, hc2, -⟩ := analyze_inv data
  omega

theorem analyze_decomp_int (data : List Nat) :
    (aus_with_meta (analyze data) : Int) =
      (realAusWithMeta (analyze data) : Int) +
        (if 0 < lookupCount (analyze data).per_au (-1) then 1 else 0) := by
  rw [analyze_decomp data]
  split <;> push_cast <;> ring

theorem coverage_eq (s : ScanState) :
    coverage s =
      if s.total_aus = 0 then 0 else (aus_with_meta s : ℚ) / (s.total_aus : ℚ) := by
  unfold coverage safe_div
  by_cases h0 : s.total_aus = 0
  · rw [if_neg (not_not_intro h0), if_pos h0]
  · rw [if_pos h0, if_neg h0, if_pos (Int.cast_ne_zero.mpr h0)]

theorem verdict_pass_iff (s : ScanState) :
    verdict s = Verdict.pass ↔
      (0 < s.total_aus ∧ (aus_with_meta s : Int) = s.total_aus ∧ 0 < s.msgs ∧
        mode_from_counts s.app_id_counts = some 4) := by
  unfold verdict
  split
  · rename_i h
    exact iff_of_true rfl h
  · rename_i h
    constructor
    · intro hv
      split at hv <;> exact absurd hv (by decide)
    · intro hc
      exact absurd hc h

/-- C2 (amended): the verdict line is PASS exactly when the total AU count
is at least one, at least one message was counted, the app_id mode is 4,
and the number of distinct message-bearing indices equals the AU total,
where that number counts the pseudo index -1 (messages seen before any AU
started) in addition to the genuine access units; PASS therefore does not
require every genuine access unit to carry a message. -/
theorem c2_pass_condition (data : List Nat) :
    verdict (analyze data) = Verdict.pass ↔
      (1 ≤ (analyze data).total_aus ∧
        (realAusWithMeta (analyze data) : Int) +
          (if 0 < lookupCount (analyze data).per_au (-1) then 1 else 0) =
            (analyze data).total_aus ∧
        1 ≤ (analyze data).msgs ∧
        mode_from_counts (analyze data).app_id_counts = some 4) := by
  rw [verdict_pass_iff, analyze_decomp_int]
  constructor
  · rintro ⟨a, b, c, d⟩
    exact ⟨by omega, b, by omega, d⟩
  · rintro ⟨a, b, c, d⟩
    exact ⟨by omega, b, by omega, d⟩

/-- C2 (counterexample): a stream whose only metadata messages sit before
the first access unit and on AU 1 is reported PASS although AU 0 carries
no message: the -1 pseudo entry fills the gap in the count. -/
theorem c2_counterexample :
    verdict (analyze exC2data) = Verdict.pass ∧
    (analyze exC2data).total_aus = 2 ∧
    lookupCount (analyze exC2data).per_au 0 = 0 :=
  ⟨by decide, by decide, by decide⟩

/-- C3 (amended): coverage equals the message-bearing index count divided
by the AU total (0 for zero AUs), where the numerator also counts the
pseudo index -1; coverage is always nonnegative, and it is at most 1
whenever no message was recorded at the pseudo index -1 — with such
pre-AU messages it can exceed 1. -/
theorem c3_coverage (data : List Nat) :
    coverage (analyze data) =
      (if (analyze data).total_aus = 0 then 0
       else ((realAusWithMeta (analyze data) : ℚ) +
          (if 0 < lookupCount (analyze data).per_au (-1) then 1 else 0)) /
            ((analyze data).total_aus : ℚ)) ∧
    0 ≤ coverage (analyze data) ∧
    (lookupCount (analyze data).per_au (-1) = 0 → coverage (analyze data) ≤ 1) := by
  obtain ⟨hnd, hall, hc1, hc2, -⟩ := analyze_inv data
  have hN := analyze_total_nonneg data
  refine ⟨?_, ?_, ?_⟩
  · rw [coverage_eq]
    by_cases h0 : (analyze data).total_aus = 0
    · rw [if_pos h0, if_pos h0]
    · rw [if_neg h0, if_neg h0]
      congr 1
      rw [analyze_decomp data]
      split <;> push_cast <;> ring
  · rw [coverage_eq]
    split
    · norm_num
    · apply div_nonneg (Nat.cast_nonneg _)
      exact_mod_cast hN
  · intro hz
    rw [coverage_eq]
    split
    · norm_num
    · rename_i h0
      have hle : (aus_with_meta (analyze data) : Int) ≤ (analyze data).total_aus := by
        rw [analyze_decomp_int, hz]
        rw [if_neg (by omega)]
        have := realAus_le_list (analyze data).per_au (analyze data).total_aus hN hnd hall
        unfold realAusWithMeta
        omega
      rw [div_le_one (by exact_mod_cast (by omega : 0 < (analyze data).total_aus))]
      exact_mod_cast hle

theorem c3_coverage_witness :
    coverage (analyze exCleanData) ≤ 1 :=
  (c3_coverage exCleanData).2.2 (by decide)

/-- C3 (counterexample): on a stream carrying a metadata message before
the first access unit and one on AU 0, the reported coverage is 2 with a
single AU: it is not the fraction of message-bearing AUs (which is 1/1)
and it exceeds 1. -/
theorem c3_counterexample :
    coverage (analyze exC3data) = 2 ∧ ¬ coverage (analyze exC3data) ≤ 1 ∧
    realAusWithMeta (analyze exC3data) = 1 ∧ (analyze exC3data).total_aus = 1 := by
  have h1 : aus_with_meta (analyze exC3data) = 2 := by decide
  have h2 : (analyze exC3data).total_aus = 1 := by decide
  have hc : coverage (analyze exC3data) = 2 := by
    rw [coverage, h1, h2]
    norm_num [safe_div]
  exact ⟨hc, by rw [hc]; norm_num, by decide, h2⟩

/-- C9 (confirmed): every ST 2094-40 message parsed before the tracker
emits its first started signal is attributed to the pseudo access-unit
index -1; that entry is counted in the message-bearing index total used
as the coverage numerator, on top of the genuine AU entries, while every
per_au key is below total_aus, so the pseudo entry never contributes to
the total AU count. -/
theorem c9_pre_au_messages (data : List Nat) :
    lookupCount (analyze data).per_au (-1) =
      preStartMsgs (detect_aud (iter_nals data)) (iter_nals data) ∧
    aus_with_meta (analyze data) =
      realAusWithMeta (analyze data) +
        (if 0 < lookupCount (analyze data).per_au (-1) then 1 else 0) ∧
    (∀ p ∈ (analyze data).per_au, -1 ≤ p.1 ∧ p.1 + 1 ≤ (analyze data).total_aus) ∧
    coverage (analyze data) =
      (if (analyze data).total_aus = 0 then 0
       else (aus_with_meta (analyze data) : ℚ) / ((analyze data).total_aus : ℚ)) := by
  obtain ⟨hnd, hall, -, -, -⟩ := analyze_inv data
  exact ⟨analyze_lookup_neg data, analyze_decomp data,
    fun p hp => ⟨(hall p hp).2.1, (hall p hp).2.2⟩, coverage_eq _⟩

theorem c9_pre_au_messages_witness :
    lookupCount (analyze exC3data).per_au (-1) =
      preStartMsgs (detect_aud (iter_nals exC3data)) (iter_nals exC3data) ∧
    aus_with_meta (analyze exC3data) = realAusWithMeta (analyze exC3data) + 1 ∧
    (-1 : Int) + 1 ≤ (analyze exC3data).total_aus := by
  obtain ⟨h1, h2, h3, -⟩ := c9_pre_au_messages exC3data
  refine ⟨h1, ?_, (h3 (-1, 1) (by decide)).2⟩
  rw [h2, if_pos (by decide)]
